import Mathlib

/-!
# threema-gateway-go: message framing, key parsing, sender strategies, key cache

A shallow embedding of `message/message.go`, `message/location.go`,
`util/crypto.go`, `sender.go` and `threema.go`.

* Go `string` and `[]byte` values are lists of bytes (naturals below 256).
* A Go result pair `(v, err)` in which a non-nil error always comes with the
  zero value is an `Except`; the sender strategies, whose pair is inspected
  component by component, return the pair itself.
* Everything outside the repository is an explicit input: the draws of
  `crypto/rand`, `box.Seal`, and the network, which answers each HTTP request
  as a function of the requests made before it.  Every request is appended to
  a log, so that "no request was made" is a statement about the log.
-/

namespace Threema

/-! ## Go values -/

/-- A Go byte slice. -/
abbrev Bytes := List Nat

/-- A Go string: an immutable sequence of bytes, `len` being its number of bytes. -/
abbrev GoString := List Nat

/-- The bytes (UTF-8) of a string literal of the source. -/
def lit (s : String) : GoString :=
  s.data.flatMap (fun c => (String.utf8EncodeChar c).map UInt8.toNat)

/-- An error value created outside the repository (`crypto/rand`, `net/http`, `io`,
`box`); the two errors of `encoding/hex` have constructors of their own in `GoError`. -/
structure ExtError where
  code : Nat
deriving DecidableEq, Repr

/-- A Go `error`: either made by `fmt.Errorf` with a constant text in this
repository, or handed over from a library. -/
inductive GoError where
  | errorf (msg : String)
  | hexInvalidByte (b : Nat)
  | hexErrLength
  | ext (e : ExtError)
deriving DecidableEq, Repr

/-- The builtin `copy(dst[off:], src)`: overwrites `min(len(dst) - off, len(src))`
bytes of `dst` starting at `off`, and leaves the rest. -/
def copyAt (dst : Bytes) (off : Nat) (src : Bytes) : Bytes :=
  let n := min (dst.length - off) src.length
  dst.take off ++ src.take n ++ dst.drop (off + n)

/-- The builtin `make([]byte, n)`. -/
def make (n : Nat) : Bytes := List.replicate n 0

/-- The conversion `byte(x)` of a non-negative `int`. -/
def byte (x : Nat) : Nat := x % 256

/-! ## float64 and the verb `%f` -/

/-- A float64 value: a finite one is `(-1)^neg * m * 2^e`; the model does not
bound `m` and `e`, so it covers every finite float64 (and more). -/
inductive Float64 where
  | finite (neg : Bool) (m : Nat) (e : Int)
  | inf (neg : Bool)
  | nan
deriving DecidableEq, Repr

/-- The comparison `x > 0` on float64 (false for NaN and for both zeros). -/
def Float64.gtZero : Float64 → Bool
  | .finite neg m _ => !neg && decide (0 < m)
  | .inf neg => !neg
  | .nan => false

/-- Rounds `num / den` to the nearest integer, ties to the even one. -/
def roundHalfEven (num den : Nat) : Nat :=
  let q := num / den
  let r := num % den
  if den < 2 * r ∨ (2 * r = den ∧ q % 2 = 1) then q + 1 else q

/-- The integer nearest to `m * 2^e * 10^6` (ties to even): the digits `%f` prints. -/
def scaled6 (m : Nat) : Int → Nat
  | Int.ofNat k => m * 2 ^ k * 10 ^ 6
  | Int.negSucc k => roundHalfEven (m * 10 ^ 6) (2 ^ (k + 1))

/-- Decimal digits of a natural number, as ASCII bytes. -/
def decimal (n : Nat) : GoString := (Nat.toDigits 10 n).map Char.toNat

/-- The six digits after the point: the last six decimal digits of `n`. -/
def frac6 (n : Nat) : GoString :=
  [5, 4, 3, 2, 1, 0].map (fun i => 48 + n / 10 ^ i % 10)

/-- `fmt.Sprintf("%f", x)`: fixed-point notation with six decimals, correctly rounded. -/
def fmtF : Float64 → GoString
  | .nan => lit "NaN"
  | .inf false => lit "+Inf"
  | .inf true => lit "-Inf"
  | .finite neg m e =>
    let q := scaled6 m e
    (if neg then lit "-" else []) ++ decimal (q / 10 ^ 6) ++ lit "." ++ frac6 q

/-- The scan of `strings.Replace` for a non-empty `old`: `skip` counts the bytes of
the occurrence just replaced that are still to be passed over. -/
def replaceFrom (old new : GoString) : Nat → GoString → GoString
  | _, [] => []
  | skip + 1, _ :: cs => replaceFrom old new skip cs
  | 0, c :: cs =>
    if old.isPrefixOf (c :: cs) then new ++ replaceFrom old new (old.length - 1) cs
    else c :: replaceFrom old new 0 cs

/-- `strings.ReplaceAll(s, old, new)` for a non-empty `old` (the only use in the
sources has `old = "\n"`): every non-overlapping occurrence of `old`, found from
the left, is replaced by `new`.  The insertion between runes that Go performs for
an empty `old` is not modelled; `s` is returned as it is. -/
def ReplaceAll (s old new : GoString) : GoString :=
  if old = [] then s else replaceFrom old new 0 s

/-! ## message/message.go, message/location.go -/

def TextMessageId : Nat := 0x01
def FileMessageId : Nat := 0x17
def LocationMessageId : Nat := 0x10
def DeliveryReceiptId : Nat := 0x80
def PollSetupId : Nat := 0x15
def PollVoteId : Nat := 0x16

structure LocationMessage where
  Latitude : Float64
  Longitude : Float64
  Accuracy : Float64
  Address : GoString
  Name : GoString
deriving DecidableEq, Repr

namespace LocationMessage

def MessageType (_ : LocationMessage) : Nat := LocationMessageId
def HasDeliveryReceipt (_ : LocationMessage) : Bool := true
def HasPushNotification (_ : LocationMessage) : Bool := true
def HasGroupFlag (_ : LocationMessage) : Bool := false

/-- `(l *LocationMessage).Data()`: the returned bytes and the receiver as the call
leaves it (the method overwrites `l.Address`). -/
def Data (l : LocationMessage) : Bytes × LocationMessage :=
  let dataString := fmtF l.Latitude ++ lit "," ++ fmtF l.Longitude
  let dataString :=
    if l.Accuracy.gtZero then dataString ++ lit "," ++ fmtF l.Accuracy else dataString
  let dataString :=
    if l.Name ≠ [] then dataString ++ lit "\n" ++ l.Name else dataString
  if l.Address ≠ [] then
    let l1 := { l with Address := ReplaceAll l.Address (lit "\n") (lit "\\n") }
    (dataString ++ lit "\n" ++ l1.Address, l1)
  else
    (dataString, l)

end LocationMessage

def NewLocationMessage (Latitude Longitude : Float64) : LocationMessage :=
  { Latitude := Latitude, Longitude := Longitude, Accuracy := .finite true 1 0,
    Address := [], Name := [] }

/-- Modelled from the spec: the declaration of `TextMessage` is not among the
sources.  `sender.go` reads its field `Text`; its type code is the registry's
`0x01`; what its other methods return is carried by the value. -/
structure TextMessage where
  Text : GoString
  deliveryReceipt : Bool
  pushNotification : Bool
  groupFlag : Bool
  data : Bytes
deriving DecidableEq, Repr

/-- A value of the interface `ThreemaMessage`, by dynamic type: `*TextMessage`,
`*LocationMessage`, or any other implementation, given by what its methods return. -/
inductive ThreemaMessage where
  | text (m : TextMessage)
  | location (l : LocationMessage)
  | other (typ : Nat) (deliveryReceipt pushNotification groupFlag : Bool) (data : Bytes)
deriving DecidableEq, Repr

namespace ThreemaMessage

def MessageType : ThreemaMessage → Nat
  | text _ => TextMessageId
  | location l => l.MessageType
  | other typ _ _ _ _ => typ

def HasDeliveryReceipt : ThreemaMessage → Bool
  | text m => m.deliveryReceipt
  | location l => l.HasDeliveryReceipt
  | other _ d _ _ _ => d

def HasPushNotification : ThreemaMessage → Bool
  | text m => m.pushNotification
  | location l => l.HasPushNotification
  | other _ _ p _ _ => p

def HasGroupFlag : ThreemaMessage → Bool
  | text m => m.groupFlag
  | location l => l.HasGroupFlag
  | other _ _ _ g _ => g

/-- `msg.Data()`: the payload and the message as the call leaves it. -/
def Data : ThreemaMessage → Bytes × ThreemaMessage
  | text m => (m.data, text m)
  | location l => ((l.Data).1, location (l.Data).2)
  | other typ d p g data => (data, other typ d p g data)

end ThreemaMessage

/-- `PaddedData(msg)`.  `randInt` is what `rand.Int(rand.Reader, big.NewInt(254))`
returns: an error, or a number in `[0, 254)`.  The second component is the message
as the call leaves it. -/
def PaddedData (randInt : Except ExtError Nat) (msg : ThreemaMessage) :
    Except GoError Bytes × ThreemaMessage :=
  match randInt with
  | .error err => (.error (.ext err), msg)
  | .ok paddingBytesB =>
    let paddingBytes := paddingBytesB + 1
    let data := (msg.Data).1
    let msg1 := (msg.Data).2
    let paddingBytes :=
      if 1 + data.length + paddingBytes < 32 then
        paddingBytes + (32 - (1 + data.length + paddingBytes))
      else paddingBytes
    let paddedData := make (1 + data.length + paddingBytes)
    let paddedData := paddedData.set 0 msg1.MessageType
    let paddedData := copyAt paddedData 1 data
    let paddedData :=
      copyAt paddedData (1 + data.length) (List.replicate paddingBytes (byte paddingBytes))
    (.ok paddedData, msg1)

/-! ## util/crypto.go -/

/-- A non-nil `NaClKey` (`*[32]byte`): the contents of the array it points to. -/
abbrev NaClKey := Bytes

/-- The table `hextable` of `encoding/hex`. -/
def hextable : GoString := lit "0123456789abcdef"

/-- `hex.EncodeToString`: two lower-case digits per byte, `hextable[v>>4]` and
`hextable[v&0x0f]`. -/
def EncodeToString (src : Bytes) : GoString :=
  src.flatMap (fun v => [hextable.getD (v >>> 4) 0, hextable.getD (v &&& 0x0f) 0])

/-- The table `reverseHexTable` of `encoding/hex`: the value of a hexadecimal digit of
either case, `0xff` for every other byte. -/
def reverseHexTable (c : Nat) : Nat :=
  if 48 ≤ c ∧ c ≤ 57 then c - 48
  else if 97 ≤ c ∧ c ≤ 102 then c - 97 + 10
  else if 65 ≤ c ∧ c ≤ 70 then c - 65 + 10
  else 0xff

/-- `hex.DecodeString`: the bytes decoded before the first error, and the error
(`InvalidByteError` at the first byte that is no digit, `ErrLength` for an odd
number of digits). -/
def DecodeString : GoString → Bytes × Option GoError
  | [] => ([], none)
  | [p] =>
    if reverseHexTable p > 0x0f then ([], some (.hexInvalidByte p))
    else ([], some .hexErrLength)
  | p :: q :: rest =>
    let a := reverseHexTable p
    let b := reverseHexTable q
    if a > 0x0f then ([], some (.hexInvalidByte p))
    else if b > 0x0f then ([], some (.hexInvalidByte q))
    else (((a <<< 4) ||| b) :: (DecodeString rest).1, (DecodeString rest).2)

/-- `NaClKeyFromString(key)`. -/
def NaClKeyFromString (key : GoString) : Except GoError NaClKey :=
  match DecodeString key with
  | (_, some err) => .error err
  | (keyBytes, none) =>
    if keyBytes.length ≠ 32 then .error (.errorf "invalid key")
    else .ok (copyAt (make 32) 0 keyBytes)

/-- What `rand.Read(nonce[:])` does: the contents it leaves in the 24-byte buffer
and the pair `(n, err)` it returns. -/
structure ReadResult where
  buf : Bytes
  n : Nat
  err : Option ExtError

/-- `generateNonce()`. -/
def generateNonce (rd : ReadResult) : Except GoError Bytes :=
  match rd.err with
  | some err => .error (.ext err)
  | none =>
    if rd.n ≠ 24 then .error (.errorf "could not read enough random bytes")
    else .ok rd.buf

/-- The library calls behind one encrypted send: the draw of `rand.Int` in
`PaddedData`, the `rand.Read` of `generateNonce`, and `box.Seal(out, message, nonce,
peersPublicKey, privateKey)`. -/
structure Crypto where
  randInt : Except ExtError Nat
  randRead : ReadResult
  Seal : Bytes → Bytes → Bytes → NaClKey → NaClKey → Bytes

/-- `EncryptBytes(b, pubKey, privKey)`: the ciphertext and the nonce. -/
def EncryptBytes (c : Crypto) (b : Bytes) (pubKey privKey : NaClKey) :
    Except GoError (Bytes × Bytes) :=
  match generateNonce c.randRead with
  | .error err => .error err
  | .ok nonce =>
    let enc := make 0
    let enc := c.Seal enc b nonce pubKey privKey
    .ok (enc, nonce)

/-! ## The network -/

/-- What the sources look at in an `*http.Response`: the status code, the result of
`io.ReadAll(res.Body)` and the result of `res.Body.Close()`. -/
structure HttpResponse where
  StatusCode : Int
  body : Except ExtError Bytes
  close : Option ExtError

/-- An HTTP request of the sources: `http.Get(url)` or `http.PostForm(url, form)`. -/
inductive HttpRequest where
  | get (url : GoString)
  | postForm (url : GoString) (form : List (String × GoString))
deriving DecidableEq, Repr

/-- The network: the requests made so far, oldest first, and the answer to a request
given the requests before it. -/
structure Network where
  log : List HttpRequest
  answer : List HttpRequest → HttpRequest → Except ExtError HttpResponse

/-- Performs one request: it is answered and logged. -/
def Network.send (w : Network) (req : HttpRequest) : Except ExtError HttpResponse × Network :=
  (w.answer w.log req, { w with log := w.log ++ [req] })

/-! ## threema.go, sender.go -/

def ThreemaGatewayApi : GoString := lit "https://msgapi.threema.ch"
def ThreemaIdLength : Nat := 8
def ThreemaMaxMessageLength : Nat := 3500
def ThreemaMaxEncryptedMessageLength : Nat := 7812

structure ApiCredentials where
  ThreemaId : GoString
  ApiKey : GoString
deriving DecidableEq, Repr

/-- The fields of the `ThreemaClient` copy held by a sender that the sender reads. -/
structure ClientConfig where
  ApiUrl : GoString
  Credentials : ApiCredentials
deriving DecidableEq, Repr

/-- What a call of `SendMessage` returns and leaves behind: the pair `(string, error)`,
the message (its `Data()` may have been called) and the network. -/
structure SendOutcome where
  token : GoString
  err : Option GoError
  msg : ThreemaMessage
  net : Network

def ternary {T : Type} (c : Bool) (t f : T) : T :=
  if c then t else f

structure ThreemaBasicMessageSender where
  client : ClientConfig

def ThreemaBasicMessageSender.SupportsPhoneOrEmail (_ : ThreemaBasicMessageSender) : Bool := true

/-- `(s *ThreemaBasicMessageSender).SendMessage(rcv, pubKey, msg)`. -/
def ThreemaBasicMessageSender.SendMessage (s : ThreemaBasicMessageSender) (rcv : GoString)
    (_pubKey : NaClKey) (msg : ThreemaMessage) (w : Network) : SendOutcome :=
  if msg.MessageType ≠ TextMessageId then
    ⟨[], some (.errorf "message type not supported"), msg, w⟩
  else
    match msg with
    | .text txtMsg =>
      if txtMsg.Text.length > ThreemaMaxMessageLength then
        ⟨[], some (.errorf "message too long"), msg, w⟩
      else
        let reqUrl := s.client.ApiUrl ++ lit "/send_simple"
        let form := [("from", s.client.Credentials.ThreemaId), ("to", rcv),
          ("text", txtMsg.Text), ("secret", s.client.Credentials.ApiKey)]
        match w.send (.postForm reqUrl form) with
        | (.error err, w1) => ⟨[], some (.ext err), msg, w1⟩
        | (.ok res, w1) =>
          match res.body with
          | .error err => ⟨[], some (.ext err), msg, w1⟩
          | .ok body =>
            match res.close with
            | some err => ⟨[], some (.ext err), msg, w1⟩
            | none => ⟨body, none, msg, w1⟩
    | _ => ⟨[], some (.errorf "message type not supported"), msg, w⟩

structure EncryptionSettings where
  PrivateKey : NaClKey
  PublicKey : NaClKey
deriving DecidableEq, Repr

structure ThreemaEndToEndMessageSender where
  Encryption : EncryptionSettings
  client : ClientConfig

def ThreemaEndToEndMessageSender.SupportsPhoneOrEmail (_ : ThreemaEndToEndMessageSender) :
    Bool := false

/-- `(s *ThreemaEndToEndMessageSender).SendMessage(rcv, pubKey, msg)`.  The variable
`err` of the source is threaded as it is assigned: after a successful
`http.PostForm` it holds nil. -/
def ThreemaEndToEndMessageSender.SendMessage (c : Crypto) (s : ThreemaEndToEndMessageSender)
    (rcv : GoString) (pubKey : NaClKey) (msg : ThreemaMessage) (w : Network) : SendOutcome :=
  match PaddedData c.randInt msg with
  | (.error err, msg1) => ⟨[], some err, msg1, w⟩
  | (.ok b, msg1) =>
    match EncryptBytes c b pubKey s.Encryption.PrivateKey with
    | .error err => ⟨[], some err, msg1, w⟩
    | .ok (enc, nonce) =>
      if enc.length > ThreemaMaxEncryptedMessageLength then
        let err : Option GoError := some (.errorf "message is too large")
        ⟨[], err, msg1, w⟩
      else
        let noDeliveryReceipts := ternary msg1.HasDeliveryReceipt (lit "0") (lit "1")
        let noPush := ternary msg1.HasPushNotification (lit "0") (lit "1")
        let group := ternary msg1.HasGroupFlag (lit "1") (lit "0")
        let reqUrl := s.client.ApiUrl ++ lit "/send_e2e"
        let form := [("from", s.client.Credentials.ThreemaId), ("to", rcv),
          ("nonce", EncodeToString nonce), ("box", EncodeToString enc),
          ("secret", s.client.Credentials.ApiKey),
          ("noDeliveryReceipts", noDeliveryReceipts), ("noPush", noPush), ("group", group)]
        match w.send (.postForm reqUrl form) with
        | (.error err, w1) => ⟨[], some (.ext err), msg1, w1⟩
        | (.ok res, w1) =>
          let err : Option GoError := none
          if res.StatusCode < 200 ∨ res.StatusCode ≥ 300 then
            ⟨[], err, msg1, w1⟩
          else
            match res.body with
            | .error err => ⟨[], some (.ext err), msg1, w1⟩
            | .ok body =>
              match res.close with
              | some err => ⟨[], some (.ext err), msg1, w1⟩
              | none => ⟨body, none, msg1, w1⟩

/-- The value of the interface `ThreemaMessageSender` a client holds: its field
`sender` is unexported and the two constructors assign one of the two strategies. -/
inductive ThreemaMessageSender where
  | basic (s : ThreemaBasicMessageSender)
  | endToEnd (s : ThreemaEndToEndMessageSender)

def ThreemaMessageSender.SupportsPhoneOrEmail : ThreemaMessageSender → Bool
  | .basic s => s.SupportsPhoneOrEmail
  | .endToEnd s => s.SupportsPhoneOrEmail

/-- The interface call `sender.SendMessage(rcv, pubKey, msg)`, dispatched on the
strategy; `c` is what the library calls of an encrypted send return. -/
def ThreemaMessageSender.SendMessage (c : Crypto) :
    ThreemaMessageSender → GoString → NaClKey → ThreemaMessage → Network → SendOutcome
  | .basic s => s.SendMessage
  | .endToEnd s => ThreemaEndToEndMessageSender.SendMessage c s

structure ThreemaClient where
  ApiUrl : GoString
  Credentials : ApiCredentials
  sender : ThreemaMessageSender
  keyCache : GoString → Option NaClKey

/-- The map assignment `keyCache[id] = key`. -/
def setKey (cache : GoString → Option NaClKey) (id : GoString) (key : NaClKey) :
    GoString → Option NaClKey :=
  fun k => if k = id then some key else cache k

def WithoutEncryption (credentials : ApiCredentials) : ThreemaClient :=
  { ApiUrl := ThreemaGatewayApi, Credentials := credentials,
    keyCache := fun _ => none,
    sender := .basic
      { client := { ApiUrl := ThreemaGatewayApi, Credentials := credentials } } }

def WithEncryption (credentials : ApiCredentials) (encryption : EncryptionSettings) :
    ThreemaClient :=
  { ApiUrl := ThreemaGatewayApi, Credentials := credentials,
    keyCache := fun _ => none,
    sender := .endToEnd
      { Encryption := encryption,
        client := { ApiUrl := ThreemaGatewayApi, Credentials := credentials } } }

/-- The URL of the public-key lookup:
`fmt.Sprintf("%s/pubkeys/%s?from=%s&secret=%s", t.ApiUrl, id, c.ThreemaId, c.ApiKey)`. -/
def ThreemaClient.pubkeyUrl (t : ThreemaClient) (id : GoString) : GoString :=
  let c := t.Credentials
  t.ApiUrl ++ lit "/pubkeys/" ++ id ++ lit "?from=" ++ c.ThreemaId ++ lit "&secret=" ++ c.ApiKey

/-- What `LookupKey` returns and leaves behind. -/
structure LookupOutcome where
  result : Except GoError NaClKey
  client : ThreemaClient
  net : Network

/-- `(t *ThreemaClient).LookupKey(id)`. -/
def ThreemaClient.LookupKey (t : ThreemaClient) (id : GoString) (w : Network) : LookupOutcome :=
  match t.keyCache id with
  | some key => ⟨.ok key, t, w⟩
  | none =>
    let reqUrl := t.pubkeyUrl id
    match w.send (.get reqUrl) with
    | (.error err, w1) => ⟨.error (.ext err), t, w1⟩
    | (.ok res, w1) =>
      match res.body with
      | .error err => ⟨.error (.ext err), t, w1⟩
      | .ok body =>
        match res.close with
        | some err => ⟨.error (.ext err), t, w1⟩
        | none =>
          match NaClKeyFromString body with
          | .error err => ⟨.error err, t, w1⟩
          | .ok key => ⟨.ok key, { t with keyCache := setKey t.keyCache id key }, w1⟩

/-- What the client's `SendMessage` returns and leaves behind. -/
structure ClientSendOutcome where
  token : GoString
  err : Option GoError
  msg : ThreemaMessage
  client : ThreemaClient
  net : Network

/-- `(t *ThreemaClient).SendMessage(rcv, msg, pubKey)`; a nil `pubKey` is `none`, and
`c` is what the library calls of an encrypted send return. -/
def ThreemaClient.SendMessage (c : Crypto) (t : ThreemaClient) (rcv : GoString)
    (msg : ThreemaMessage) (pubKey : Option NaClKey) (w : Network) : ClientSendOutcome :=
  if rcv.length ≠ ThreemaIdLength then
    ⟨[], some (.errorf "rcv length invalid"), msg, t, w⟩
  else
    match pubKey with
    | some key =>
      let r := t.sender.SendMessage c rcv key msg w
      ⟨r.token, r.err, r.msg, t, r.net⟩
    | none =>
      let l := t.LookupKey rcv w
      match l.result with
      | .error err => ⟨[], some err, msg, l.client, l.net⟩
      | .ok remoteKey =>
        let r := l.client.sender.SendMessage c rcv remoteKey msg l.net
        ⟨r.token, r.err, r.msg, l.client, r.net⟩

/-! ## Definitions that follow the wording of the specification -/

/-- The address "with every newline character replaced by the two characters
backslash and n", byte by byte. -/
def escapeNewlines (s : GoString) : GoString :=
  s.flatMap (fun c => if c = 10 then [92, 110] else [c])

/-- The order `x > 0` of IEEE 754, read off the value of `x`: a finite number is
positive when the rational `(-1)^neg * m * 2^e` is, `+Inf` is positive, `-Inf` and
NaN are not. -/
def Float64.positive : Float64 → Prop
  | .finite neg m e => 0 < (if neg then (-1 : ℚ) else 1) * (m : ℚ) * (2 : ℚ) ^ e
  | .inf neg => neg = false
  | .nan => False

instance (x : Float64) : Decidable x.positive := by
  cases x <;> unfold Float64.positive <;> infer_instance

/-- A decimal digit, as an ASCII byte. -/
def isDigit (d : Nat) : Prop := 48 ≤ d ∧ d ≤ 57

/-- The number a string of decimal digits denotes. -/
def digitsValue (s : GoString) : Nat :=
  s.foldl (fun acc d => 10 * acc + (d - 48)) 0

/-- The string `s` is the fixed-point notation with six decimals of the finite number
`(-1)^neg * m * 2^e`: a minus sign exactly when the sign bit is set, the integer
digits without a superfluous leading zero, a point, and exactly six decimal digits,
the digits together denoting the integer nearest to `m * 2^e * 10^6`, the even one
of the two when the number lies half-way. -/
def isFixed6 (neg : Bool) (m : Nat) (e : Int) (s : GoString) : Prop :=
  ∃ whole six : GoString,
    s = (if neg then [45] else []) ++ whole ++ [46] ++ six ∧
    whole ≠ [] ∧ (∀ d ∈ whole, isDigit d) ∧ (whole = [48] ∨ whole.head? ≠ some 48) ∧
    six.length = 6 ∧ (∀ d ∈ six, isDigit d) ∧
    |((digitsValue (whole ++ six) : Nat) : ℚ) - (m : ℚ) * (2 : ℚ) ^ e * 10 ^ 6| ≤ 1 / 2 ∧
    (|((digitsValue (whole ++ six) : Nat) : ℚ) - (m : ℚ) * (2 : ℚ) ^ e * 10 ^ 6| = 1 / 2 →
      digitsValue (whole ++ six) % 2 = 0)

/-- The location payload as the specification words it: the two coordinates, then
each optional part exactly when it is set, in the fixed order. -/
def locationPayload (l : LocationMessage) : Bytes :=
  fmtF l.Latitude ++ lit "," ++ fmtF l.Longitude
    ++ (if l.Accuracy.positive then lit "," ++ fmtF l.Accuracy else [])
    ++ (if l.Name ≠ [] then lit "\n" ++ l.Name else [])
    ++ (if l.Address ≠ [] then lit "\n" ++ escapeNewlines l.Address else [])

/-- The float64 nearest to 52.5, which is `105 * 2^-1`. -/
def lat52_5 : Float64 := .finite false 105 (-1)

/-- The float64 nearest to 13.4, which is `7543529375845581 * 2^-49`. -/
def lon13_4 : Float64 := .finite false 7543529375845581 (-49)

/-- A location whose coordinates are no numbers: latitude NaN, longitude `-Inf`,
accuracy `+Inf`. -/
def nanLocation : LocationMessage :=
  { Latitude := .nan, Longitude := .inf true, Accuracy := .inf false,
    Address := [], Name := [] }

/-- The Berlin location of the specification's example. -/
def berlin : LocationMessage :=
  { NewLocationMessage lat52_5 lon13_4 with
    Name := lit "Berlin", Address := lit "Street\nCity" }

/-- A hexadecimal digit of either case, as a byte. -/
def isHexDigit (c : Nat) : Prop :=
  (48 ≤ c ∧ c ≤ 57) ∨ (97 ≤ c ∧ c ≤ 102) ∨ (65 ≤ c ∧ c ≤ 70)

instance (c : Nat) : Decidable (isHexDigit c) := by
  unfold isHexDigit; infer_instance

/-- A string of exactly 64 hexadecimal digits, that is, "valid hex decoding to
exactly 32 bytes". -/
def is64HexDigits (s : GoString) : Prop :=
  s.length = 64 ∧ ∀ c ∈ s, isHexDigit c

/-- The lower-case form of a hexadecimal digit. -/
def lowerHex (c : Nat) : Nat :=
  if 65 ≤ c ∧ c ≤ 70 then c + 32 else c

/-- The body a request brought back, when the transport worked: the request was
answered, the body was read and closed without error. -/
def fetchedBody (r : Except ExtError HttpResponse) : Option Bytes :=
  match r with
  | .error _ => none
  | .ok res =>
    match res.body, res.close with
    | .ok body, none => some body
    | _, _ => none

/-! ## Concrete values used to instantiate the theorems -/

def demoCredentials : ApiCredentials :=
  { ThreemaId := lit "*GATEWAY", ApiKey := lit "secret" }

def demoConfig : ClientConfig :=
  { ApiUrl := ThreemaGatewayApi, Credentials := demoCredentials }

def demoKey : NaClKey := List.replicate 32 171

/-- A network that answers every request with the given status and body. -/
def constNetwork (status : Int) (body : Bytes) : Network :=
  { log := [], answer := fun _ _ => .ok { StatusCode := status, body := .ok body, close := none } }

/-- Library behaviour for one encrypted send: the draw 3 (four padding bytes before
the minimum-length rule), a nonce of 24 bytes `7`, and a `Seal` that appends 16
bytes and the message to `out`. -/
def demoCrypto : Crypto :=
  { randInt := .ok 3,
    randRead := { buf := List.replicate 24 7, n := 24, err := none },
    Seal := fun out m _ _ _ => out ++ List.replicate 16 0 ++ m }

def demoText : ThreemaMessage :=
  .text { Text := lit "hi", deliveryReceipt := true, pushNotification := true,
          groupFlag := false, data := lit "hi" }

/-- A text of 3500 characters, each the two-byte letter é. -/
def text3500 : String := String.mk (List.replicate 3500 'é')

def demoBasic : ThreemaBasicMessageSender := { client := demoConfig }

def demoEndToEnd : ThreemaEndToEndMessageSender :=
  { Encryption := { PrivateKey := List.replicate 32 1, PublicKey := List.replicate 32 2 },
    client := demoConfig }

/-- The frame `PaddedData` builds for `demoText` under `demoCrypto`: 32 bytes. -/
def demoFrame : Bytes := [1, 104, 105] ++ List.replicate 29 29

/-! ## Theorems -/

theorem set_zero_make (n : Nat) (t : Nat) :
    (make (n + 1)).set 0 t = t :: make n := by
  simp [make, List.replicate_succ]

theorem copyAt_one_cons (t : Nat) (data : Bytes) (k : Nat) :
    copyAt (t :: make (data.length + k)) 1 data = t :: data ++ make k := by
  have h : 1 + data.length = data.length + 1 := by omega
  simp [copyAt, make, List.drop_replicate, h]

theorem copyAt_tail (t : Nat) (data pad : Bytes) :
    copyAt (t :: data ++ make pad.length) (1 + data.length) pad = t :: data ++ pad := by
  have h : 1 + data.length = (t :: data).length := by simp; omega
  simp only [copyAt, make]
  rw [h]
  have h2 : data.length + pad.length + 1 ≤ data.length + 1 + pad.length := by omega
  simp [List.take_append_eq_append_take, List.drop_append_eq_append_drop, h2]

theorem getLast?_frame (t : Nat) (p pad : Bytes) (a : Nat) :
    (t :: (p ++ (pad ++ [a]))).getLast? = some a := by
  rw [← List.append_assoc, ← List.cons_append, List.getLast?_append]; simp

theorem MessageType_Data (msg : ThreemaMessage) :
    (msg.Data).2.MessageType = msg.MessageType := by
  cases msg <;> rfl

theorem PaddedData_eq (r : Nat) (msg : ThreemaMessage) :
    (PaddedData (.ok r) msg).1
      = .ok (msg.MessageType :: (msg.Data).1 ++
          List.replicate
            (if 1 + (msg.Data).1.length + (r + 1) < 32 then 31 - (msg.Data).1.length else r + 1)
            (byte (if 1 + (msg.Data).1.length + (r + 1) < 32 then 31 - (msg.Data).1.length
              else r + 1))) := by
  simp only [PaddedData, MessageType_Data]
  split_ifs with h
  · have e : r + 1 + (32 - (1 + (msg.Data).1.length + (r + 1))) = 31 - (msg.Data).1.length := by
      omega
    rw [e]
    have e2 : 1 + (msg.Data).1.length + (31 - (msg.Data).1.length)
        = ((msg.Data).1.length + (31 - (msg.Data).1.length)) + 1 := by omega
    rw [e2, set_zero_make, copyAt_one_cons]
    have := copyAt_tail msg.MessageType (msg.Data).1
      (List.replicate (31 - (msg.Data).1.length) (byte (31 - (msg.Data).1.length)))
    simp only [List.length_replicate] at this
    rw [this]
  · have e2 : 1 + (msg.Data).1.length + (r + 1) = ((msg.Data).1.length + (r + 1)) + 1 := by omega
    rw [e2, set_zero_make, copyAt_one_cons]
    have := copyAt_tail msg.MessageType (msg.Data).1 (List.replicate (r + 1) (byte (r + 1)))
    simp only [List.length_replicate] at this
    rw [this]


/-- C1: for every message and every draw `d = r + 1` in 1..254 of the padding count,
`PaddedData` returns without error the frame `[t] ++ p ++ (N copies of the byte N)`
with `1 ≤ N ≤ 254`; the frame has at least 32 bytes, starts with the type code, ends
with the number of padding bytes `N = len(frame) - 1 - len(p)`, and `N = d` unless
`1 + len(p) + d < 32`, in which case `N = 31 - len(p)` and the frame has 32 bytes. -/
theorem PaddedData_frame (msg : ThreemaMessage) (r : Nat) (hr : r < 254) :
    ∃ N frame, (PaddedData (.ok r) msg).1 = .ok frame ∧
      1 ≤ N ∧ N ≤ 254 ∧
      frame = msg.MessageType :: (msg.Data).1 ++ List.replicate N N ∧
      32 ≤ frame.length ∧
      frame.head? = some msg.MessageType ∧
      frame.getLast? = some N ∧
      N = frame.length - 1 - (msg.Data).1.length ∧
      (if 1 + (msg.Data).1.length + (r + 1) < 32
        then N = 31 - (msg.Data).1.length ∧ frame.length = 32
        else N = r + 1) := by
  refine ⟨if 1 + (msg.Data).1.length + (r + 1) < 32 then 31 - (msg.Data).1.length else r + 1,
    _, PaddedData_eq r msg, ?_⟩
  generalize (msg.Data).1 = p
  generalize msg.MessageType = t
  have hb : ∀ N, N ≤ 254 → byte N = N := fun N h => Nat.mod_eq_of_lt (by omega)
  split_ifs with h
  · have hN : 31 - p.length ≤ 254 := by omega
    rw [hb _ hN]
    have hpos : 31 - p.length = (30 - p.length) + 1 := by omega
    refine ⟨by omega, hN, rfl, ?_, rfl, ?_, ?_, rfl, ?_⟩
    · simp; omega
    · rw [hpos, List.replicate_succ']
      simpa using getLast?_frame t p _ _
    · simp
    · simp; omega
  · have hN : r + 1 ≤ 254 := by omega
    rw [hb _ hN]
    refine ⟨by omega, hN, rfl, ?_, rfl, ?_, ?_, rfl⟩
    · simp; omega
    · rw [List.replicate_succ']
      simpa using getLast?_frame t p _ _
    · simp

/-- Witness of C1: a two-byte text payload and the draw 4 give a 32-byte frame. -/
theorem PaddedData_frame_witness :
    (3 < 254) ∧ ∃ N frame,
      (PaddedData (.ok 3) (.other 1 true true false [104, 105])).1 = .ok frame ∧
      1 ≤ N ∧ N ≤ 254 ∧
      frame = (ThreemaMessage.other 1 true true false [104, 105]).MessageType ::
        ((ThreemaMessage.other 1 true true false [104, 105]).Data).1 ++ List.replicate N N ∧
      32 ≤ frame.length ∧
      frame.head? = some (ThreemaMessage.other 1 true true false [104, 105]).MessageType ∧
      frame.getLast? = some N ∧
      N = frame.length - 1 - ((ThreemaMessage.other 1 true true false [104, 105]).Data).1.length ∧
      (if 1 + ((ThreemaMessage.other 1 true true false [104, 105]).Data).1.length + (3 + 1) < 32
        then N = 31 - ((ThreemaMessage.other 1 true true false [104, 105]).Data).1.length
          ∧ frame.length = 32
        else N = 3 + 1) :=
  ⟨by decide, PaddedData_frame (.other 1 true true false [104, 105]) 3 (by decide)⟩

/-! ### Location payload -/

theorem lit_newline : lit "\n" = [10] := by decide

theorem lit_backslash_n : lit "\\n" = [92, 110] := by decide

theorem ReplaceAll_newline (s : GoString) :
    ReplaceAll s (lit "\n") (lit "\\n") = escapeNewlines s := by
  rw [lit_newline, lit_backslash_n]
  simp only [ReplaceAll, List.cons_ne_nil, if_false]
  induction s with
  | nil => rfl
  | cons c cs ih =>
    by_cases hc : c = 10
    · subst hc
      simp [replaceFrom, escapeNewlines, List.isPrefixOf] at ih ⊢
      exact ih
    · have hc2 : ¬ (10 = c) := fun h => hc h.symm
      simp [replaceFrom, escapeNewlines, List.isPrefixOf, hc, hc2] at ih ⊢
      exact ih

theorem escapeNewlines_no_newline (s : GoString) : 10 ∉ escapeNewlines s := by
  induction s with
  | nil => simp [escapeNewlines]
  | cons c cs ih =>
    by_cases hc : c = 10
    · simp [escapeNewlines, hc] at ih ⊢
      exact ih
    · have hc2 : ¬ (10 = c) := fun h => hc h.symm
      simp [escapeNewlines, hc, hc2] at ih ⊢
      exact ih

theorem escapeNewlines_of_no_newline (s : GoString) (h : 10 ∉ s) : escapeNewlines s = s := by
  induction s with
  | nil => rfl
  | cons c cs ih =>
    have hc : c ≠ 10 := fun e => h (by simp [e])
    have hcs : 10 ∉ cs := fun e => h (by simp [e])
    have := ih hcs
    simp [escapeNewlines, hc] at this ⊢
    exact this

theorem escapeNewlines_eq_nil (s : GoString) : escapeNewlines s = [] ↔ s = [] := by
  cases s with
  | nil => simp [escapeNewlines]
  | cons c cs =>
    by_cases hc : c = 10 <;> simp [escapeNewlines, hc]

theorem gtZero_iff_positive (x : Float64) : x.gtZero = true ↔ x.positive := by
  cases x with
  | finite neg m e =>
    have h2 : (0 : ℚ) < (2 : ℚ) ^ e := zpow_pos (by norm_num) e
    cases neg with
    | true =>
      simp only [Float64.gtZero, Float64.positive, Bool.not_true, Bool.false_and, if_true,
        Bool.false_eq_true, false_iff, not_lt]
      have hm : (0 : ℚ) ≤ m := Nat.cast_nonneg m
      have : 0 ≤ (m : ℚ) * (2 : ℚ) ^ e := mul_nonneg hm h2.le
      linarith
    | false =>
      simp only [Float64.gtZero, Float64.positive, Bool.not_false, Bool.true_and,
        decide_eq_true_eq, Bool.false_eq_true, if_false, one_mul]
      constructor
      · intro h
        have hm : (0 : ℚ) < m := by exact_mod_cast h
        exact mul_pos hm h2
      · intro h
        have hm : (0 : ℚ) < m := (mul_pos_iff_of_pos_right h2).mp h
        exact_mod_cast hm
  | inf neg => cases neg <;> simp [Float64.gtZero, Float64.positive]
  | nan => simp [Float64.gtZero, Float64.positive]

theorem Data_fst (l : LocationMessage) : (l.Data).1 = locationPayload l := by
  simp only [LocationMessage.Data, locationPayload, ReplaceAll_newline, gtZero_iff_positive]
  split_ifs <;> simp

theorem Data_snd (l : LocationMessage) :
    (l.Data).2 = { l with Address := escapeNewlines l.Address } := by
  by_cases h : l.Address = []
  · cases l
    simp_all [LocationMessage.Data, escapeNewlines]
  · simp only [LocationMessage.Data, ReplaceAll_newline, ne_eq, h, not_false_eq_true, if_true]

/-- C5: calling `Data()` twice in a row on the same location message returns the
same bytes both times, and the second call leaves the `Address` field as the first
call left it. -/
theorem Data_twice (l : LocationMessage) :
    ((l.Data).2.Data).1 = (l.Data).1 ∧ ((l.Data).2.Data).2.Address = (l.Data).2.Address := by
  have h : escapeNewlines (escapeNewlines l.Address) = escapeNewlines l.Address :=
    escapeNewlines_of_no_newline _ (escapeNewlines_no_newline _)
  constructor
  · rw [Data_fst, Data_fst, Data_snd]
    simp only [locationPayload, h, ne_eq, escapeNewlines_eq_nil]
  · rw [Data_snd, Data_snd]
    exact h

/-! ### The verb `%f` -/

theorem roundHalfEven_nearest (num den : Nat) (hden : 0 < den) :
    |((roundHalfEven num den : Nat) : ℚ) - (num : ℚ) / den| ≤ 1 / 2 ∧
    (|((roundHalfEven num den : Nat) : ℚ) - (num : ℚ) / den| = 1 / 2 →
      roundHalfEven num den % 2 = 0) := by
  have hd : (0 : ℚ) < den := by exact_mod_cast hden
  have hsplit : (num : ℚ) = den * (num / den : Nat) + (num % den : Nat) := by
    exact_mod_cast (Nat.div_add_mod num den).symm
  have hr : num % den < den := Nat.mod_lt _ hden
  have hval : (num : ℚ) / den = (num / den : Nat) + ((num % den : Nat) : ℚ) / den := by
    rw [hsplit]; field_simp; ring
  generalize hx : ((num % den : Nat) : ℚ) / den = x at hval
  have hx0 : 0 ≤ x := by rw [← hx]; positivity
  have hlt : (den < 2 * (num % den)) ↔ 1 / 2 < x := by
    rw [← hx, lt_div_iff₀ hd]
    constructor
    · intro h
      have : (den : ℚ) < 2 * (num % den : Nat) := by exact_mod_cast h
      linarith
    · intro h
      have : (den : ℚ) < 2 * (num % den : Nat) := by linarith
      exact_mod_cast this
  have heq : (2 * (num % den) = den) ↔ x = 1 / 2 := by
    rw [← hx, div_eq_iff hd.ne']
    constructor
    · intro h
      have : (2 : ℚ) * (num % den : Nat) = den := by exact_mod_cast h
      linarith
    · intro h
      have : (2 : ℚ) * (num % den : Nat) = den := by linarith
      exact_mod_cast this
  have hx1 : x < 1 := by
    rw [← hx, div_lt_one hd]; exact_mod_cast hr
  unfold roundHalfEven
  simp only
  split_ifs with h
  · rw [hval]
    push_cast
    have e : ((num / den : Nat) : ℚ) + 1 - (((num / den : Nat) : ℚ) + x) = 1 - x := by ring
    rw [e, abs_of_pos (by linarith)]
    rcases h with h | ⟨h1, h2⟩
    · have := hlt.mp h
      exact ⟨by linarith, fun h' => by linarith⟩
    · have := heq.mp h1
      exact ⟨by linarith, fun _ => by omega⟩
  · rw [hval]
    have e : ((num / den : Nat) : ℚ) - (((num / den : Nat) : ℚ) + x) = -x := by ring
    rw [e, abs_neg, abs_of_nonneg hx0]
    push_neg at h
    have h1 : x ≤ 1 / 2 := by
      by_contra hc
      push_neg at hc
      have := hlt.mpr hc
      omega
    refine ⟨h1, fun h' => ?_⟩
    have := h.2 (heq.mpr h')
    omega

theorem scaled6_nearest (m : Nat) (e : Int) :
    |((scaled6 m e : Nat) : ℚ) - (m : ℚ) * 2 ^ e * 10 ^ 6| ≤ 1 / 2 ∧
    (|((scaled6 m e : Nat) : ℚ) - (m : ℚ) * 2 ^ e * 10 ^ 6| = 1 / 2 → scaled6 m e % 2 = 0) := by
  cases e with
  | ofNat k =>
    have : ((scaled6 m (Int.ofNat k) : Nat) : ℚ) = (m : ℚ) * 2 ^ (Int.ofNat k) * 10 ^ 6 := by
      simp only [scaled6, Int.ofNat_eq_coe, zpow_natCast]
      push_cast
      ring
    rw [this]
    simp
  | negSucc k =>
    have hden : 0 < 2 ^ (k + 1) := by positivity
    have h := roundHalfEven_nearest (m * 10 ^ 6) (2 ^ (k + 1)) hden
    have e2 : (m : ℚ) * 2 ^ (Int.negSucc k) * 10 ^ 6
        = ((m * 10 ^ 6 : Nat) : ℚ) / ((2 ^ (k + 1) : Nat) : ℚ) := by
      rw [zpow_negSucc]
      push_cast
      field_simp
      norm_num
    rw [e2]
    exact h

theorem digitChar_toNat : ∀ k < 10, (Nat.digitChar k).toNat = 48 + k := by decide

theorem foldl_digits (b : GoString) (x : Nat) :
    b.foldl (fun acc d => 10 * acc + (d - 48)) x = x * 10 ^ b.length + digitsValue b := by
  induction b generalizing x with
  | nil => simp [digitsValue]
  | cons d b ih =>
    simp only [List.foldl_cons, List.length_cons, digitsValue]
    rw [ih, ih (10 * 0 + (d - 48))]
    ring

theorem digitsValue_append (a b : GoString) :
    digitsValue (a ++ b) = digitsValue a * 10 ^ b.length + digitsValue b := by
  simp only [digitsValue, List.foldl_append]
  exact foldl_digits b _

theorem toDigitsCore_spec (fuel : Nat) : ∀ (n : Nat) (ds : List Char), n < fuel →
    ∃ pre : List Char, Nat.toDigitsCore 10 fuel n ds = pre ++ ds ∧ pre ≠ [] ∧
      (∀ c ∈ pre, isDigit c.toNat) ∧ digitsValue (pre.map Char.toNat) = n ∧
      (pre.map Char.toNat = [48] ∨ (pre.map Char.toNat).head? ≠ some 48) := by
  induction fuel with
  | zero => intro n ds h; omega
  | succ fuel ih =>
    intro n ds h
    have hd := digitChar_toNat (n % 10) (Nat.mod_lt _ (by decide))
    by_cases h0 : n / 10 = 0
    · refine ⟨[Nat.digitChar (n % 10)], by simp [Nat.toDigitsCore, h0], by simp, ?_, ?_, ?_⟩
      · intro c hc
        simp only [List.mem_singleton] at hc
        subst hc
        unfold isDigit
        omega
      · simp only [List.map_cons, List.map_nil, digitsValue, List.foldl_cons, List.foldl_nil, hd]
        omega
      · simp only [List.map_cons, List.map_nil, hd, List.head?_cons, ne_eq, Option.some.injEq,
          List.cons.injEq, and_true]
        omega
    · obtain ⟨pre, hp, hne, hdig, hval, hhead⟩ :=
        ih (n / 10) (Nat.digitChar (n % 10) :: ds) (by omega)
      refine ⟨pre ++ [Nat.digitChar (n % 10)], ?_, by simp, ?_, ?_, ?_⟩
      · simp [Nat.toDigitsCore, h0, hp]
      · intro c hc
        rcases List.mem_append.mp hc with hc | hc
        · exact hdig c hc
        · simp only [List.mem_singleton] at hc
          subst hc
          unfold isDigit
          omega
      · rw [List.map_append, digitsValue_append, hval]
        simp only [List.map_cons, List.map_nil, List.length_singleton, digitsValue,
          List.foldl_cons, List.foldl_nil, hd]
        omega
      · right
        rcases hhead with hh | hh
        · exfalso
          rw [hh] at hval
          simp [digitsValue] at hval
          omega
        · cases pre with
          | nil => exact absurd rfl hne
          | cons c cs => simpa using hh

theorem decimal_spec (n : Nat) :
    decimal n ≠ [] ∧ (∀ d ∈ decimal n, isDigit d) ∧ digitsValue (decimal n) = n ∧
      (decimal n = [48] ∨ (decimal n).head? ≠ some 48) := by
  obtain ⟨pre, hp, hne, hdig, hval, hhead⟩ := toDigitsCore_spec (n + 1) n [] (by omega)
  have e : decimal n = pre.map Char.toNat := by
    simp [decimal, Nat.toDigits, hp]
  rw [e]
  refine ⟨by simpa using hne, ?_, hval, hhead⟩
  intro d hd
  obtain ⟨c, hc, rfl⟩ := List.mem_map.mp hd
  exact hdig c hc

theorem frac6_value (n : Nat) : digitsValue (frac6 n) = n % 10 ^ 6 := by
  simp only [frac6, digitsValue, List.map_cons, List.map_nil, List.foldl_cons, List.foldl_nil]
  norm_num
  omega

theorem frac6_digits (n : Nat) :
    (frac6 n).length = 6 ∧ ∀ d ∈ frac6 n, isDigit d := by
  refine ⟨by simp [frac6], fun d hd => ?_⟩
  simp only [frac6, List.map_cons, List.map_nil, List.mem_cons, List.mem_singleton,
    List.mem_nil_iff, or_false] at hd
  unfold isDigit
  rcases hd with h | h | h | h | h | h <;> omega

theorem lit_minus : lit "-" = [45] := by decide

theorem lit_point : lit "." = [46] := by decide

theorem fmtF_finite (neg : Bool) (m : Nat) (e : Int) :
    isFixed6 neg m e (fmtF (.finite neg m e)) := by
  have hd := decimal_spec (scaled6 m e / 10 ^ 6)
  have hf := frac6_digits (scaled6 m e)
  have hv : digitsValue (decimal (scaled6 m e / 10 ^ 6) ++ frac6 (scaled6 m e))
      = scaled6 m e := by
    rw [digitsValue_append, hd.2.2.1, frac6_value, hf.1]
    exact Nat.div_add_mod' _ _
  have hr := scaled6_nearest m e
  refine ⟨decimal (scaled6 m e / 10 ^ 6), frac6 (scaled6 m e), ?_, hd.1, hd.2.1, hd.2.2.2,
    hf.1, hf.2, ?_, ?_⟩
  · simp only [fmtF, lit_minus, lit_point]
  · rw [hv]; exact hr.1
  · rw [hv]; exact hr.2

theorem isFixed6_head (neg : Bool) (m : Nat) (e : Int) (s : GoString)
    (h : isFixed6 neg m e s) : ∃ c t, s = c :: t ∧ (c = 45 ∨ isDigit c) := by
  obtain ⟨whole, six, hs, hne, hdig, -⟩ := h
  cases neg with
  | true => exact ⟨45, whole ++ [46] ++ six, by simpa using hs, Or.inl rfl⟩
  | false =>
    cases whole with
    | nil => exact absurd rfl hne
    | cons c cs => exact ⟨c, cs ++ [46] ++ six, by simpa using hs, Or.inr (hdig c (by simp))⟩

/-- C6 (amended): `Data()` of a location message is `"<lat>,<lon>"` in `%f` notation,
then `",<accuracy>"` exactly when `Accuracy > 0`, then a newline and `Name` exactly
when `Name` is non-empty, then a newline and the address with each newline byte
replaced by backslash and `n` exactly when `Address` is non-empty.  `%f` of a finite
number is its fixed-point notation with six decimals, correctly rounded; `%f` of NaN,
`+Inf` and `-Inf` is `NaN`, `+Inf` and `-Inf`.  For 52.5, 13.4, no accuracy, "Berlin"
and "Street<newline>City" the payload is
`52.500000,13.400000<newline>Berlin<newline>Street\nCity`. -/
theorem Data_payload :
    (∀ l : LocationMessage, (l.Data).1 = locationPayload l) ∧
    (∀ neg m e, isFixed6 neg m e (fmtF (.finite neg m e))) ∧
    (fmtF .nan = [78, 97, 78] ∧ fmtF (.inf false) = [43, 73, 110, 102] ∧
      fmtF (.inf true) = [45, 73, 110, 102]) ∧
    (berlin.Data).1 = lit "52.500000,13.400000\nBerlin\nStreet\\nCity" :=
  ⟨Data_fst, fmtF_finite, ⟨by decide, by decide, by decide⟩, by decide⟩

/-- Counterexample to C6 as stated: for latitude NaN, longitude `-Inf` and accuracy
`+Inf` the payload is `NaN,-Inf,+Inf`, which does not begin with a number in
fixed-point notation. -/
theorem Data_nan_not_fixed_point :
    (nanLocation.Data).1 = lit "NaN,-Inf,+Inf" ∧
    ¬ ∃ neg m e a rest, isFixed6 neg m e a ∧ (nanLocation.Data).1 = a ++ rest := by
  have hdata : (nanLocation.Data).1 = lit "NaN,-Inf,+Inf" := by decide
  refine ⟨hdata, ?_⟩
  rintro ⟨neg, m, e, a, rest, hfix, heq⟩
  obtain ⟨c, t, rfl, hc⟩ := isFixed6_head neg m e a hfix
  rw [hdata] at heq
  have h78 : c = 78 := by
    have := congrArg List.head? heq
    simpa [lit, String.utf8EncodeChar] using this.symm
  unfold isDigit at hc
  omega

/-- C10: for every non-empty `x` without a newline byte, the location with
`Name = x` and no address and the location with `Address = x` and no name, all other
fields equal, are different messages with the same payload. -/
theorem Data_not_injective (l : LocationMessage) (x : GoString) (hx : x ≠ [])
    (hnl : 10 ∉ x) :
    ({ l with Name := x, Address := [] } : LocationMessage)
        ≠ { l with Name := [], Address := x } ∧
      (LocationMessage.Data { l with Name := x, Address := [] }).1
        = (LocationMessage.Data { l with Name := [], Address := x }).1 := by
  constructor
  · intro h
    have := congrArg LocationMessage.Name h
    exact hx this
  · rw [Data_fst, Data_fst]
    simp [locationPayload, hx, escapeNewlines_of_no_newline x hnl]

/-- Witness of C10: "Berlin" as the name only and as the address only. -/
theorem Data_not_injective_witness :
    ({ berlin with Name := lit "Berlin", Address := [] } : LocationMessage)
        ≠ { berlin with Name := [], Address := lit "Berlin" } ∧
      (LocationMessage.Data { berlin with Name := lit "Berlin", Address := [] }).1
        = (LocationMessage.Data { berlin with Name := [], Address := lit "Berlin" }).1 :=
  Data_not_injective berlin (lit "Berlin") (by decide) (by decide)

/-! ### Keys in hexadecimal -/

theorem hextable_eq :
    hextable = [48, 49, 50, 51, 52, 53, 54, 55, 56, 57, 97, 98, 99, 100, 101, 102] := by
  decide

theorem reverseHexTable_invalid (c : Nat) : reverseHexTable c > 0x0f ↔ ¬ isHexDigit c := by
  unfold reverseHexTable isHexDigit
  split_ifs <;> omega

theorem reverseHexTable_lt (c : Nat) (h : isHexDigit c) : reverseHexTable c < 16 := by
  have := (reverseHexTable_invalid c).not.mpr (not_not.mpr h)
  omega

theorem nibbles_join : ∀ a < 16, ∀ b < 16,
    ((a <<< 4) ||| b) >>> 4 = a ∧ ((a <<< 4) ||| b) &&& 0x0f = b ∧ ((a <<< 4) ||| b) < 256 := by
  decide

set_option maxRecDepth 8000 in
theorem nibbles_split : ∀ v < 256,
    v >>> 4 < 16 ∧ v &&& 0x0f < 16 ∧ ((v >>> 4) <<< 4) ||| (v &&& 0x0f) = v := by
  decide

theorem hextable_reverse : ∀ c < 128, isHexDigit c →
    hextable.getD (reverseHexTable c) 0 = lowerHex c := by
  rw [hextable_eq]
  decide

theorem reverse_hextable : ∀ a < 16,
    isHexDigit (hextable.getD a 0) ∧ reverseHexTable (hextable.getD a 0) = a := by
  rw [hextable_eq]
  decide

theorem isHexDigit_lt (c : Nat) (h : isHexDigit c) : c < 128 := by
  unfold isHexDigit at h; omega

theorem pairs_induction {P : GoString → Prop} (h0 : P []) (h1 : ∀ p, P [p])
    (h2 : ∀ p q rest, P rest → P (p :: q :: rest)) : ∀ s, P s := by
  intro s
  have : P s ∧ ∀ p, P (p :: s) := by
    induction s with
    | nil => exact ⟨h0, h1⟩
    | cons c cs ih => exact ⟨ih.2 c, fun p => h2 p c cs ih.1⟩
  exact this.1

theorem DecodeString_pair (p q : Nat) (rest : GoString) (hp : isHexDigit p)
    (hq : isHexDigit q) :
    DecodeString (p :: q :: rest)
      = (((reverseHexTable p <<< 4) ||| reverseHexTable q) :: (DecodeString rest).1,
          (DecodeString rest).2) := by
  have ha := reverseHexTable_lt p hp
  have hb := reverseHexTable_lt q hq
  have ha2 : ¬ (15 < reverseHexTable p) := by omega
  have hb2 : ¬ (15 < reverseHexTable q) := by omega
  simp [DecodeString, ha2, hb2]

theorem DecodeString_ok_iff (s : GoString) :
    (DecodeString s).2 = none ↔ (s.length % 2 = 0 ∧ ∀ c ∈ s, isHexDigit c) := by
  induction s using pairs_induction with
  | h0 => simp [DecodeString]
  | h1 p => 
    simp only [DecodeString]
    split_ifs <;> simp
  | h2 p q rest ih =>
    by_cases hp : isHexDigit p
    · by_cases hq : isHexDigit q
      · rw [DecodeString_pair p q rest hp hq]
        simp only [ih, List.length_cons, List.mem_cons, forall_eq_or_imp, hp, hq, true_and]
        constructor
        · rintro ⟨h, h2⟩; exact ⟨by omega, h2⟩
        · rintro ⟨h, h2⟩; exact ⟨by omega, h2⟩
      · have hb : 15 < reverseHexTable q := (reverseHexTable_invalid q).mpr hq
        have ha : ¬ (15 < reverseHexTable p) := by
          have := reverseHexTable_lt p hp; omega
        simp [DecodeString, ha, hb, hq]
    · have ha : 15 < reverseHexTable p := (reverseHexTable_invalid p).mpr hp
      simp [DecodeString, ha, hp]

theorem DecodeString_sound (s : GoString) (h : (DecodeString s).2 = none) :
    (DecodeString s).1.length * 2 = s.length ∧ (∀ b ∈ (DecodeString s).1, b < 256) ∧
      EncodeToString (DecodeString s).1 = s.map lowerHex := by
  induction s using pairs_induction with
  | h0 => simp [DecodeString, EncodeToString]
  | h1 p =>
    exfalso
    have := (DecodeString_ok_iff [p]).mp h
    simp at this
  | h2 p q rest ih =>
    have hall := (DecodeString_ok_iff (p :: q :: rest)).mp h
    have hp : isHexDigit p := hall.2 p (by simp)
    have hq : isHexDigit q := hall.2 q (by simp)
    rw [DecodeString_pair p q rest hp hq] at h ⊢
    obtain ⟨ih1, ih2, ih3⟩ := ih h
    have hj := nibbles_join _ (reverseHexTable_lt p hp) _ (reverseHexTable_lt q hq)
    refine ⟨by simp; omega, ?_, ?_⟩
    · intro b hb
      rcases List.mem_cons.mp hb with rfl | hb
      · exact hj.2.2
      · exact ih2 b hb
    · have e : EncodeToString
          (((reverseHexTable p <<< 4) ||| reverseHexTable q) :: (DecodeString rest).1)
          = [hextable.getD (((reverseHexTable p <<< 4) ||| reverseHexTable q) >>> 4) 0,
              hextable.getD (((reverseHexTable p <<< 4) ||| reverseHexTable q) &&& 0x0f) 0]
            ++ EncodeToString (DecodeString rest).1 := by
        simp [EncodeToString]
      rw [e, hj.1, hj.2.1, ih3, hextable_reverse p (isHexDigit_lt p hp) hp,
        hextable_reverse q (isHexDigit_lt q hq) hq]
      simp

theorem DecodeString_EncodeToString (k : Bytes) (hk : ∀ b ∈ k, b < 256) :
    DecodeString (EncodeToString k) = (k, none) := by
  induction k with
  | nil => simp [EncodeToString, DecodeString]
  | cons v k ih =>
    have hv : v < 256 := hk v (by simp)
    have ih2 := ih (fun b hb => hk b (by simp [hb]))
    have hs := nibbles_split v hv
    have h1 := reverse_hextable _ hs.1
    have h2 := reverse_hextable _ hs.2.1
    have e : EncodeToString (v :: k)
        = hextable.getD (v >>> 4) 0 :: hextable.getD (v &&& 0x0f) 0 :: EncodeToString k := by
      simp [EncodeToString]
    rw [e, DecodeString_pair _ _ _ h1.1 h2.1, h1.2, h2.2, ih2, hs.2.2]

theorem copyAt_full (src : Bytes) : copyAt (make src.length) 0 src = src := by
  simp [copyAt, make]

theorem EncodeToString_length (k : Bytes) : (EncodeToString k).length = 2 * k.length := by
  induction k with
  | nil => simp [EncodeToString]
  | cons v k ih =>
    have e : EncodeToString (v :: k)
        = hextable.getD (v >>> 4) 0 :: hextable.getD (v &&& 0x0f) 0 :: EncodeToString k := by
      simp [EncodeToString]
    rw [e]; simp [ih]; omega

theorem NaClKeyFromString_ok_iff (s : GoString) (k : NaClKey) :
    NaClKeyFromString s = .ok k ↔
      ((DecodeString s).2 = none ∧ (DecodeString s).1.length = 32 ∧ k = (DecodeString s).1) := by
  unfold NaClKeyFromString
  rcases hd : DecodeString s with ⟨bs, e⟩
  cases e with
  | some err => simp
  | none =>
    by_cases hl : bs.length = 32
    · have := copyAt_full bs
      rw [hl] at this
      simp [hl, this, eq_comm]
    · simp [hl]

theorem NaClKeyFromString_succeeds_iff (s : GoString) :
    (∃ k, NaClKeyFromString s = .ok k) ↔ is64HexDigits s := by
  unfold is64HexDigits
  constructor
  · rintro ⟨k, hk⟩
    obtain ⟨h1, h2, -⟩ := (NaClKeyFromString_ok_iff s k).mp hk
    have hs := DecodeString_sound s h1
    have ho := (DecodeString_ok_iff s).mp h1
    exact ⟨by omega, ho.2⟩
  · rintro ⟨hl, hd⟩
    have h1 : (DecodeString s).2 = none := (DecodeString_ok_iff s).mpr ⟨by omega, hd⟩
    have hs := DecodeString_sound s h1
    exact ⟨_, (NaClKeyFromString_ok_iff s _).mpr ⟨h1, by omega, rfl⟩⟩

theorem NaClKeyFromString_sound (s : GoString) (k : NaClKey)
    (h : NaClKeyFromString s = .ok k) :
    k.length = 32 ∧ (∀ b ∈ k, b < 256) ∧ EncodeToString k = s.map lowerHex := by
  obtain ⟨h1, h2, rfl⟩ := (NaClKeyFromString_ok_iff s k).mp h
  have hs := DecodeString_sound s h1
  exact ⟨h2, hs.2.1, hs.2.2⟩

theorem NaClKeyFromString_EncodeToString (k : NaClKey) (hl : k.length = 32)
    (hb : ∀ b ∈ k, b < 256) : NaClKeyFromString (EncodeToString k) = .ok k := by
  rw [NaClKeyFromString_ok_iff, DecodeString_EncodeToString k hb]
  exact ⟨rfl, hl, rfl⟩

/-- C8: `NaClKeyFromString(s)` succeeds exactly when `s` is 64 hexadecimal digits of
either case; the key it returns then has 32 bytes and is the one those digits
encode (its lower-case hex form is `s` in lower case); every other string gives an
error; and every 32-byte key is recovered from its hex form. -/
theorem NaClKeyFromString_spec :
    (∀ s : GoString, (∃ k, NaClKeyFromString s = .ok k) ↔
      (s.length = 64 ∧ ∀ c ∈ s, isHexDigit c)) ∧
    (∀ (s : GoString) (k : NaClKey), NaClKeyFromString s = .ok k →
      k.length = 32 ∧ (∀ b ∈ k, b < 256) ∧ EncodeToString k = s.map lowerHex) ∧
    (∀ s : GoString, ¬ (s.length = 64 ∧ ∀ c ∈ s, isHexDigit c) →
      ∃ err, NaClKeyFromString s = .error err) ∧
    (∀ k : NaClKey, k.length = 32 → (∀ b ∈ k, b < 256) →
      NaClKeyFromString (EncodeToString k) = .ok k) := by
  refine ⟨NaClKeyFromString_succeeds_iff, NaClKeyFromString_sound, fun s h => ?_,
    NaClKeyFromString_EncodeToString⟩
  rcases hk : NaClKeyFromString s with err | key
  · exact ⟨err, rfl⟩
  · exact absurd ((NaClKeyFromString_succeeds_iff s).mp ⟨key, hk⟩) h

/-- Witness of C8: the key of 32 bytes `0xab` is recovered from its 64 digits. -/
theorem NaClKeyFromString_spec_witness :
    NaClKeyFromString (EncodeToString (List.replicate 32 171)) = .ok (List.replicate 32 171) :=
  NaClKeyFromString_spec.2.2.2 (List.replicate 32 171) (by decide) (by decide)

/-! ### The key cache -/

theorem LookupKey_hit (t : ThreemaClient) (id : GoString) (w : Network) (key : NaClKey)
    (h : t.keyCache id = some key) :
    (t.LookupKey id w).result = .ok key ∧ (t.LookupKey id w).net.log = w.log ∧
      (t.LookupKey id w).client.keyCache = t.keyCache := by
  simp [ThreemaClient.LookupKey, h]

theorem LookupKey_miss_log (t : ThreemaClient) (id : GoString) (w : Network)
    (h : t.keyCache id = none) :
    (t.LookupKey id w).net.log = w.log ++ [.get (t.pubkeyUrl id)] := by
  simp only [ThreemaClient.LookupKey, h, Network.send]
  rcases w.answer w.log (.get (t.pubkeyUrl id)) with err | res
  · simp
  · rcases hb : res.body with err | body
    · simp [hb]
    · rcases hc : res.close with _ | err
      · rcases hk : NaClKeyFromString body with err | key <;> simp [hb, hc, hk]
      · simp [hb, hc]

theorem LookupKey_miss_transport (t : ThreemaClient) (id : GoString) (w : Network)
    (h : t.keyCache id = none)
    (hf : fetchedBody (w.answer w.log (.get (t.pubkeyUrl id))) = none) :
    (∃ err, (t.LookupKey id w).result = .error err) ∧
      (t.LookupKey id w).client.keyCache = t.keyCache := by
  simp only [ThreemaClient.LookupKey, h, Network.send]
  generalize w.answer w.log (.get (t.pubkeyUrl id)) = r at hf ⊢
  rcases r with err | res
  · simp
  · rcases hb : res.body with err | body
    · simp [hb]
    · rcases hc : res.close with _ | err
      · simp [fetchedBody, hb, hc] at hf
      · simp [hb, hc]

theorem LookupKey_miss_body (t : ThreemaClient) (id : GoString) (w : Network)
    (h : t.keyCache id = none) (body : Bytes)
    (hf : fetchedBody (w.answer w.log (.get (t.pubkeyUrl id))) = some body) :
    (t.LookupKey id w).result = NaClKeyFromString body ∧
      (t.LookupKey id w).client.keyCache =
        (match NaClKeyFromString body with
          | .ok key => setKey t.keyCache id key
          | .error _ => t.keyCache) := by
  simp only [ThreemaClient.LookupKey, h, Network.send]
  generalize w.answer w.log (.get (t.pubkeyUrl id)) = r at hf ⊢
  rcases r with err | res
  · simp [fetchedBody] at hf
  · rcases hb : res.body with err | body1
    · simp [fetchedBody, hb] at hf
    · rcases hc : res.close with _ | err
      · simp [fetchedBody, hb, hc] at hf
        subst hf
        rcases hk : NaClKeyFromString body1 with err | key <;> simp [hb, hc, hk]
      · simp [fetchedBody, hb, hc] at hf

theorem NaClKeyFromString_error_of_invalid (body : Bytes) (h : ¬ is64HexDigits body) :
    ∃ err, NaClKeyFromString body = .error err := by
  rcases hk : NaClKeyFromString body with err | key
  · exact ⟨err, rfl⟩
  · exact absurd ((NaClKeyFromString_succeeds_iff body).mp ⟨key, hk⟩) h

/-- C7: with the cache as state and the network as an oracle: (1) a cached key is
returned with no request and the cache unchanged; (2) on a miss, if the transport
fails or the body is not 64 hexadecimal digits, an error is returned and the cache
is unchanged; (3) on a miss, if a valid body comes back, its key is returned, the
cache afterwards differs only at `id`, where it holds that key, and a second lookup
on any network returns the same key with no request and the cache unchanged. -/
theorem LookupKey_cache (t : ThreemaClient) (id : GoString) (w : Network) :
    (∀ key, t.keyCache id = some key →
      (t.LookupKey id w).result = .ok key ∧ (t.LookupKey id w).net.log = w.log ∧
        (t.LookupKey id w).client.keyCache = t.keyCache) ∧
    (t.keyCache id = none →
      (∀ body, fetchedBody (w.answer w.log (.get (t.pubkeyUrl id))) = some body →
        ¬ is64HexDigits body) →
      (∃ err, (t.LookupKey id w).result = .error err) ∧
        (t.LookupKey id w).client.keyCache = t.keyCache) ∧
    (t.keyCache id = none →
      ∀ body, fetchedBody (w.answer w.log (.get (t.pubkeyUrl id))) = some body →
        is64HexDigits body →
      ∃ key, (t.LookupKey id w).result = .ok key ∧
        EncodeToString key = body.map lowerHex ∧
        (t.LookupKey id w).client.keyCache id = some key ∧
        (∀ other, other ≠ id → (t.LookupKey id w).client.keyCache other = t.keyCache other) ∧
        ∀ w2 : Network,
          ((t.LookupKey id w).client.LookupKey id w2).result = .ok key ∧
          ((t.LookupKey id w).client.LookupKey id w2).net.log = w2.log ∧
          ((t.LookupKey id w).client.LookupKey id w2).client.keyCache
            = (t.LookupKey id w).client.keyCache) := by
  refine ⟨fun key h => LookupKey_hit t id w key h, fun h hbad => ?_, fun h body hb hv => ?_⟩
  · rcases hf : fetchedBody (w.answer w.log (.get (t.pubkeyUrl id))) with _ | body
    · exact LookupKey_miss_transport t id w h hf
    · obtain ⟨hres, hcache⟩ := LookupKey_miss_body t id w h body hf
      obtain ⟨err, he⟩ := NaClKeyFromString_error_of_invalid body (hbad body hf)
      rw [he] at hres hcache
      exact ⟨⟨err, hres⟩, hcache⟩
  · obtain ⟨hres, hcache⟩ := LookupKey_miss_body t id w h body hb
    obtain ⟨key, hk⟩ := (NaClKeyFromString_succeeds_iff body).mpr hv
    rw [hk] at hres hcache
    have hid : (t.LookupKey id w).client.keyCache id = some key := by
      rw [hcache]; simp [setKey]
    refine ⟨key, hres, (NaClKeyFromString_sound body key hk).2.2, hid, ?_, ?_⟩
    · intro other ho
      rw [hcache]; simp [setKey, ho]
    · intro w2
      exact LookupKey_hit _ id w2 key hid

/-- Witness of C7: a first lookup of "ABCDEFGH" on a network that answers with the
64 digits of a key caches that key. -/
theorem LookupKey_cache_witness :
    ∃ key,
      ((WithoutEncryption demoCredentials).LookupKey (lit "ABCDEFGH")
        (constNetwork 200 (EncodeToString demoKey))).result = .ok key ∧
      EncodeToString key = (EncodeToString demoKey).map lowerHex ∧
      ((WithoutEncryption demoCredentials).LookupKey (lit "ABCDEFGH")
        (constNetwork 200 (EncodeToString demoKey))).client.keyCache (lit "ABCDEFGH")
          = some key ∧
      (∀ other, other ≠ lit "ABCDEFGH" →
        ((WithoutEncryption demoCredentials).LookupKey (lit "ABCDEFGH")
          (constNetwork 200 (EncodeToString demoKey))).client.keyCache other
          = (WithoutEncryption demoCredentials).keyCache other) ∧
      ∀ w2 : Network,
        ((((WithoutEncryption demoCredentials).LookupKey (lit "ABCDEFGH")
          (constNetwork 200 (EncodeToString demoKey))).client.LookupKey
            (lit "ABCDEFGH") w2).result = .ok key ∧
        (((WithoutEncryption demoCredentials).LookupKey (lit "ABCDEFGH")
          (constNetwork 200 (EncodeToString demoKey))).client.LookupKey
            (lit "ABCDEFGH") w2).net.log = w2.log ∧
        (((WithoutEncryption demoCredentials).LookupKey (lit "ABCDEFGH")
          (constNetwork 200 (EncodeToString demoKey))).client.LookupKey
            (lit "ABCDEFGH") w2).client.keyCache
          = ((WithoutEncryption demoCredentials).LookupKey (lit "ABCDEFGH")
              (constNetwork 200 (EncodeToString demoKey))).client.keyCache) :=
  (LookupKey_cache (WithoutEncryption demoCredentials) (lit "ABCDEFGH")
    (constNetwork 200 (EncodeToString demoKey))).2.2 rfl (EncodeToString demoKey) rfl
    (by unfold is64HexDigits; decide)

/-! ### The client -/

theorem DecodeString_error (s : GoString) (msg : String) :
    (DecodeString s).2 ≠ some (.errorf msg) := by
  induction s using pairs_induction with
  | h0 => simp [DecodeString]
  | h1 p =>
    simp only [DecodeString]
    split_ifs <;> simp
  | h2 p q rest ih =>
    simp only [DecodeString]
    split_ifs
    · simp
    · simp
    · exact ih

theorem NaClKeyFromString_error_ne (body : Bytes) :
    NaClKeyFromString body ≠ .error (.errorf "rcv length invalid") := by
  unfold NaClKeyFromString
  have h := DecodeString_error body "rcv length invalid"
  rcases hd : DecodeString body with ⟨bs, e⟩
  rw [hd] at h
  cases e with
  | some err =>
    simp only [ne_eq, Except.error.injEq]
    intro he
    exact h (by rw [he])
  | none =>
    simp only
    split_ifs <;> simp

theorem LookupKey_error_ne (t : ThreemaClient) (id : GoString) (w : Network) :
    (t.LookupKey id w).result ≠ .error (.errorf "rcv length invalid") := by
  unfold ThreemaClient.LookupKey
  rcases t.keyCache id with _ | key
  · simp only [Network.send]
    rcases w.answer w.log (.get (t.pubkeyUrl id)) with err | res
    · simp
    · rcases hb : res.body with err | body
      · simp [hb]
      · rcases hc : res.close with _ | err
        · have := NaClKeyFromString_error_ne body
          rcases hk : NaClKeyFromString body with err | key
          · rw [hk] at this
            simpa [hb, hc, hk] using this
          · simp [hb, hc, hk]
        · simp [hb, hc]
  · simp

theorem Basic_error_ne (s : ThreemaBasicMessageSender) (rcv : GoString) (key : NaClKey)
    (msg : ThreemaMessage) (w : Network) :
    (s.SendMessage rcv key msg w).err ≠ some (.errorf "rcv length invalid") := by
  unfold ThreemaBasicMessageSender.SendMessage
  split_ifs
  · simp
  · cases msg with
    | text m =>
      simp only [Network.send]
      split_ifs
      · simp
      · rcases w.answer w.log _ with err | res
        · simp
        · rcases hb : res.body with err | body
          · simp [hb]
          · rcases hc : res.close with _ | err <;> simp [hb, hc]
    | location l => simp
    | other typ d p g data => simp

theorem EndToEnd_after_encrypt (c : Crypto) (s : ThreemaEndToEndMessageSender)
    (rcv : GoString) (pubKey : NaClKey) (msg : ThreemaMessage) (w : Network)
    (b enc nonce : Bytes)
    (hpad : (PaddedData c.randInt msg).1 = .ok b)
    (henc : EncryptBytes c b pubKey s.Encryption.PrivateKey = .ok (enc, nonce)) :
    ThreemaEndToEndMessageSender.SendMessage c s rcv pubKey msg w =
      (let msg1 := (PaddedData c.randInt msg).2
      if enc.length > ThreemaMaxEncryptedMessageLength then
        ⟨[], some (.errorf "message is too large"), msg1, w⟩
      else
        let form := [("from", s.client.Credentials.ThreemaId), ("to", rcv),
          ("nonce", EncodeToString nonce), ("box", EncodeToString enc),
          ("secret", s.client.Credentials.ApiKey),
          ("noDeliveryReceipts", ternary msg1.HasDeliveryReceipt (lit "0") (lit "1")),
          ("noPush", ternary msg1.HasPushNotification (lit "0") (lit "1")),
          ("group", ternary msg1.HasGroupFlag (lit "1") (lit "0"))]
        let req := HttpRequest.postForm (s.client.ApiUrl ++ lit "/send_e2e") form
        let w1 : Network := { w with log := w.log ++ [req] }
        match w.answer w.log req with
        | .error err => ⟨[], some (.ext err), msg1, w1⟩
        | .ok res =>
          if res.StatusCode < 200 ∨ res.StatusCode ≥ 300 then ⟨[], none, msg1, w1⟩
          else
            match res.body with
            | .error err => ⟨[], some (.ext err), msg1, w1⟩
            | .ok body =>
              match res.close with
              | some err => ⟨[], some (.ext err), msg1, w1⟩
              | none => ⟨body, none, msg1, w1⟩) := by
  unfold ThreemaEndToEndMessageSender.SendMessage
  rcases hp : PaddedData c.randInt msg with ⟨r, msg1⟩
  rw [hp] at hpad
  simp only at hpad
  subst hpad
  simp only [henc, Network.send]
  split_ifs with h1
  · rfl
  · rcases w.answer w.log _ with err | res
    · rfl
    · rfl

theorem PaddedData_error (r : Except ExtError Nat) (msg : ThreemaMessage) (err : GoError)
    (h : (PaddedData r msg).1 = .error err) : ∃ e, err = .ext e := by
  unfold PaddedData at h
  rcases r with e | n
  · simp only [Except.error.injEq] at h
    exact ⟨e, h.symm⟩
  · simp at h

theorem EncryptBytes_error (c : Crypto) (b : Bytes) (pk sk : NaClKey) (err : GoError)
    (h : EncryptBytes c b pk sk = .error err) :
    (∃ e, err = .ext e) ∨ err = .errorf "could not read enough random bytes" := by
  unfold EncryptBytes generateNonce at h
  rcases hr : c.randRead.err with _ | e
  · simp only [hr] at h
    split_ifs at h
    simp only [Except.error.injEq] at h
    exact Or.inr h.symm
  · simp only [hr, Except.error.injEq] at h
    exact Or.inl ⟨e, h.symm⟩

theorem EndToEnd_error_ne (c : Crypto) (s : ThreemaEndToEndMessageSender) (rcv : GoString)
    (key : NaClKey) (msg : ThreemaMessage) (w : Network) :
    (ThreemaEndToEndMessageSender.SendMessage c s rcv key msg w).err
      ≠ some (.errorf "rcv length invalid") := by
  rcases hp : (PaddedData c.randInt msg).1 with err | b
  · obtain ⟨e, rfl⟩ := PaddedData_error _ _ _ hp
    unfold ThreemaEndToEndMessageSender.SendMessage
    rcases hq : PaddedData c.randInt msg with ⟨r, msg1⟩
    rw [hq] at hp
    simp only at hp
    subst hp
    simp
  · rcases he : EncryptBytes c b key s.Encryption.PrivateKey with err | ⟨enc, nonce⟩
    · unfold ThreemaEndToEndMessageSender.SendMessage
      rcases hq : PaddedData c.randInt msg with ⟨r, msg1⟩
      rw [hq] at hp
      simp only at hp
      subst hp
      simp only [he]
      rcases EncryptBytes_error _ _ _ _ _ he with ⟨e, rfl⟩ | rfl <;> simp
    · rw [EndToEnd_after_encrypt c s rcv key msg w b enc nonce hp he]
      simp only
      split_ifs
      · simp
      · rcases w.answer w.log _ with err | res
        · simp
        · simp only
          split_ifs
          · simp
          · rcases hb : res.body with err | body
            · simp
            · rcases hc : res.close with _ | err <;> simp

theorem Sender_error_ne (c : Crypto) (snd : ThreemaMessageSender) (rcv : GoString)
    (key : NaClKey) (msg : ThreemaMessage) (w : Network) :
    (snd.SendMessage c rcv key msg w).err ≠ some (.errorf "rcv length invalid") := by
  cases snd with
  | basic s => exact Basic_error_ne s rcv key msg w
  | endToEnd s => exact EndToEnd_error_ne c s rcv key msg w

/-- C9 (amended): `SendMessage` returns the validation error 'rcv length invalid'
exactly when the recipient id is not 8 bytes long, and then nothing else happens:
no request, no lookup, no call of the sender, cache and message untouched.  With an
id of 8 bytes and a non-nil key, the outcome is that of one call of the sender
strategy with that recipient, key and message on the untouched network, and the
cache is unchanged. -/
theorem SendMessage_rcv_length (c : Crypto) (t : ThreemaClient) (rcv : GoString)
    (msg : ThreemaMessage) (pubKey : Option NaClKey) (w : Network) :
    ((t.SendMessage c rcv msg pubKey w).err = some (.errorf "rcv length invalid")
      ↔ rcv.length ≠ 8) ∧
    (rcv.length ≠ 8 →
      (t.SendMessage c rcv msg pubKey w).token = [] ∧
      (t.SendMessage c rcv msg pubKey w).net = w ∧
      (t.SendMessage c rcv msg pubKey w).msg = msg ∧
      (t.SendMessage c rcv msg pubKey w).client.keyCache = t.keyCache) ∧
    (rcv.length = 8 → ∀ key, pubKey = some key →
      (t.SendMessage c rcv msg pubKey w).token = (t.sender.SendMessage c rcv key msg w).token ∧
      (t.SendMessage c rcv msg pubKey w).err = (t.sender.SendMessage c rcv key msg w).err ∧
      (t.SendMessage c rcv msg pubKey w).msg = (t.sender.SendMessage c rcv key msg w).msg ∧
      (t.SendMessage c rcv msg pubKey w).net = (t.sender.SendMessage c rcv key msg w).net ∧
      (t.SendMessage c rcv msg pubKey w).client.keyCache = t.keyCache) := by
  refine ⟨?_, fun h => ?_, fun h key hk => ?_⟩
  · by_cases h : rcv.length = 8
    · simp only [h, ne_eq, not_true_eq_false, iff_false]
      cases pubKey with
      | some key =>
        simpa [ThreemaClient.SendMessage, ThreemaIdLength, h]
          using Sender_error_ne c t.sender rcv key msg w
      | none =>
        have hl := LookupKey_error_ne t rcv w
        simp only [ThreemaClient.SendMessage, ThreemaIdLength, h, ne_eq, not_true_eq_false,
          if_false]
        rcases hr : (t.LookupKey rcv w).result with err | key
        · rw [hr] at hl
          simpa using hl
        · exact Sender_error_ne _ _ _ _ _ _
    · simp [ThreemaClient.SendMessage, ThreemaIdLength, h]
  · simp [ThreemaClient.SendMessage, ThreemaIdLength, h]
  · subst hk
    simp [ThreemaClient.SendMessage, ThreemaIdLength, h]

/-- Witness of C9 (amended): a plain-text client, the id "ABCDEFGH" of 8 bytes, a
supplied key: the outcome is the sender's. -/
theorem SendMessage_rcv_length_witness :
    ((WithoutEncryption demoCredentials).SendMessage demoCrypto (lit "ABCDEFGH") demoText
        (some demoKey) (constNetwork 200 (lit "token"))).token
      = ((WithoutEncryption demoCredentials).sender.SendMessage demoCrypto (lit "ABCDEFGH")
          demoKey demoText (constNetwork 200 (lit "token"))).token ∧
    ((WithoutEncryption demoCredentials).SendMessage demoCrypto (lit "ABCDEFGH") demoText
        (some demoKey) (constNetwork 200 (lit "token"))).err
      = ((WithoutEncryption demoCredentials).sender.SendMessage demoCrypto (lit "ABCDEFGH")
          demoKey demoText (constNetwork 200 (lit "token"))).err ∧
    ((WithoutEncryption demoCredentials).SendMessage demoCrypto (lit "ABCDEFGH") demoText
        (some demoKey) (constNetwork 200 (lit "token"))).msg
      = ((WithoutEncryption demoCredentials).sender.SendMessage demoCrypto (lit "ABCDEFGH")
          demoKey demoText (constNetwork 200 (lit "token"))).msg ∧
    ((WithoutEncryption demoCredentials).SendMessage demoCrypto (lit "ABCDEFGH") demoText
        (some demoKey) (constNetwork 200 (lit "token"))).net
      = ((WithoutEncryption demoCredentials).sender.SendMessage demoCrypto (lit "ABCDEFGH")
          demoKey demoText (constNetwork 200 (lit "token"))).net ∧
    ((WithoutEncryption demoCredentials).SendMessage demoCrypto (lit "ABCDEFGH") demoText
        (some demoKey) (constNetwork 200 (lit "token"))).client.keyCache
      = (WithoutEncryption demoCredentials).keyCache :=
  (SendMessage_rcv_length demoCrypto (WithoutEncryption demoCredentials) (lit "ABCDEFGH")
    demoText (some demoKey) (constNetwork 200 (lit "token"))).2.2 (by decide) demoKey rfl

/-- Counterexample to C9 as stated: the id "ABCDEFGé" has exactly 8 characters (and
9 bytes), a key is supplied, and the send is rejected with 'rcv length invalid'
without the sender being called. -/
theorem SendMessage_eight_characters_rejected :
    "ABCDEFGé".length = 8 ∧
    ((WithoutEncryption demoCredentials).SendMessage demoCrypto (lit "ABCDEFGé") demoText
      (some demoKey) (constNetwork 200 (lit "token"))).err
        = some (.errorf "rcv length invalid") ∧
    ((WithoutEncryption demoCredentials).SendMessage demoCrypto (lit "ABCDEFGé") demoText
      (some demoKey) (constNetwork 200 (lit "token"))).net.log = [] := by
  decide

/-! ### The sender strategies -/

theorem utf8EncodeChar_length_pos (c : Char) : 1 ≤ (String.utf8EncodeChar c).length := by
  unfold String.utf8EncodeChar
  simp only
  split_ifs <;> simp

theorem lit_length_ge (txt : String) : txt.length ≤ (lit txt).length := by
  rcases txt with ⟨cs⟩
  simp only [lit, String.length]
  induction cs with
  | nil => simp
  | cons c cs ih =>
    have := utf8EncodeChar_length_pos c
    simp only [List.flatMap_cons, List.length_append, List.length_map, List.length_cons]
    omega

theorem lit_replicate_length (n : Nat) (c : Char) :
    (lit (String.mk (List.replicate n c))).length = n * (String.utf8EncodeChar c).length := by
  simp only [lit]
  induction n with
  | zero => simp
  | succ n ih =>
    simp only [List.replicate_succ, List.flatMap_cons, List.length_append, List.length_map, ih]
    ring

theorem text3500_bytes : (lit text3500).length = 7000 := by
  have h : (String.utf8EncodeChar 'é').length = 2 := by decide
  rw [text3500, lit_replicate_length, h]

/-- C3 (amended): the plain sender rejects every message that is not a Text message
with 'message type not supported', and every Text message whose text is longer than
3500 bytes with 'message too long', in both cases without any HTTP request; a Text
message of at most 3500 bytes gets neither error and exactly one POST is made.  A
text of more than 3500 characters is always longer than 3500 bytes. -/
theorem Basic_SendMessage_checks (s : ThreemaBasicMessageSender) (rcv : GoString)
    (key : NaClKey) (msg : ThreemaMessage) (w : Network) :
    ((∀ m, msg ≠ .text m) →
      (s.SendMessage rcv key msg w).err = some (.errorf "message type not supported") ∧
      (s.SendMessage rcv key msg w).token = [] ∧ (s.SendMessage rcv key msg w).net = w) ∧
    (∀ m, msg = .text m → 3500 < m.Text.length →
      (s.SendMessage rcv key msg w).err = some (.errorf "message too long") ∧
      (s.SendMessage rcv key msg w).token = [] ∧ (s.SendMessage rcv key msg w).net = w) ∧
    (∀ m, msg = .text m → m.Text.length ≤ 3500 →
      (s.SendMessage rcv key msg w).err ≠ some (.errorf "message type not supported") ∧
      (s.SendMessage rcv key msg w).err ≠ some (.errorf "message too long") ∧
      (s.SendMessage rcv key msg w).net.log = w.log ++
        [.postForm (s.client.ApiUrl ++ lit "/send_simple")
          [("from", s.client.Credentials.ThreemaId), ("to", rcv), ("text", m.Text),
            ("secret", s.client.Credentials.ApiKey)]]) ∧
    (∀ m (txt : String), msg = .text m → m.Text = lit txt → 3500 < txt.length →
      (s.SendMessage rcv key msg w).err = some (.errorf "message too long")) := by
  have hlong : ∀ m, msg = .text m → 3500 < m.Text.length →
      (s.SendMessage rcv key msg w).err = some (.errorf "message too long") ∧
      (s.SendMessage rcv key msg w).token = [] ∧ (s.SendMessage rcv key msg w).net = w := by
    intro m hm hl
    subst hm
    simp [ThreemaBasicMessageSender.SendMessage, ThreemaMessage.MessageType,
      ThreemaMaxMessageLength, hl]
  refine ⟨fun h => ?_, hlong, fun m hm hl => ?_, fun m txt hm ht hl => ?_⟩
  · unfold ThreemaBasicMessageSender.SendMessage
    split_ifs
    · simp
    · cases msg with
      | text m => exact absurd rfl (h m)
      | location l => simp
      | other typ d p g data => simp
  · subst hm
    have hl2 : ¬ (3500 < m.Text.length) := by omega
    simp only [ThreemaBasicMessageSender.SendMessage, ThreemaMessage.MessageType,
      ThreemaMaxMessageLength, Network.send, hl2, ne_eq, not_true_eq_false, if_false,
      gt_iff_lt]
    rcases w.answer w.log _ with err | res
    · simp
    · rcases hb : res.body with err | body
      · simp [hb]
      · rcases hc : res.close with _ | err <;> simp [hb, hc]
  · have := lit_length_ge txt
    exact (hlong m hm (by rw [ht]; omega)).1

/-- Witness of C3 (amended): the text "hi" is sent with one POST. -/
theorem Basic_SendMessage_checks_witness :
    (demoBasic.SendMessage (lit "ABCDEFGH") demoKey demoText (constNetwork 200 (lit "token"))).err
        ≠ some (.errorf "message type not supported") ∧
      (demoBasic.SendMessage (lit "ABCDEFGH") demoKey demoText
        (constNetwork 200 (lit "token"))).err ≠ some (.errorf "message too long") ∧
      (demoBasic.SendMessage (lit "ABCDEFGH") demoKey demoText
        (constNetwork 200 (lit "token"))).net.log = (constNetwork 200 (lit "token")).log ++
        [.postForm (demoBasic.client.ApiUrl ++ lit "/send_simple")
          [("from", demoBasic.client.Credentials.ThreemaId), ("to", lit "ABCDEFGH"),
            ("text", lit "hi"), ("secret", demoBasic.client.Credentials.ApiKey)]] :=
  (Basic_SendMessage_checks demoBasic (lit "ABCDEFGH") demoKey demoText
    (constNetwork 200 (lit "token"))).2.2.1 _ rfl (by decide)

/-- Counterexample to C3 as stated: a Text message of exactly 3500 characters (each
the letter é, two bytes in UTF-8) is rejected with 'message too long' and no HTTP
request is made. -/
theorem Basic_3500_characters_rejected :
    text3500.length = 3500 ∧
    (demoBasic.SendMessage (lit "ABCDEFGH") demoKey
      (.text { Text := lit text3500, deliveryReceipt := true, pushNotification := true,
               groupFlag := false, data := lit text3500 })
      (constNetwork 200 (lit "token"))).err = some (.errorf "message too long") ∧
    (demoBasic.SendMessage (lit "ABCDEFGH") demoKey
      (.text { Text := lit text3500, deliveryReceipt := true, pushNotification := true,
               groupFlag := false, data := lit text3500 })
      (constNetwork 200 (lit "token"))).net.log = [] := by
  refine ⟨List.length_replicate 3500 'é', ?_, ?_⟩
  · simp [ThreemaBasicMessageSender.SendMessage, ThreemaMessage.MessageType,
      ThreemaMaxMessageLength, text3500_bytes]
  · simp [ThreemaBasicMessageSender.SendMessage, ThreemaMessage.MessageType,
      ThreemaMaxMessageLength, text3500_bytes, constNetwork]

/-- C4: when padding and encryption succeed, the encrypted sender returns 'message
is too large' exactly when the ciphertext is longer than 7812 bytes, and then no
HTTP request is made; otherwise exactly one POST is made.  If `Seal` adds 16 bytes
to the frame, that is exactly when the frame is longer than 7796 bytes. -/
theorem EndToEnd_size_limit (c : Crypto) (s : ThreemaEndToEndMessageSender)
    (rcv : GoString) (pubKey : NaClKey) (msg : ThreemaMessage) (w : Network)
    (b enc nonce : Bytes)
    (hpad : (PaddedData c.randInt msg).1 = .ok b)
    (henc : EncryptBytes c b pubKey s.Encryption.PrivateKey = .ok (enc, nonce)) :
    ((ThreemaEndToEndMessageSender.SendMessage c s rcv pubKey msg w).err
        = some (.errorf "message is too large") ↔ 7812 < enc.length) ∧
    (7812 < enc.length →
      (ThreemaEndToEndMessageSender.SendMessage c s rcv pubKey msg w).token = [] ∧
      (ThreemaEndToEndMessageSender.SendMessage c s rcv pubKey msg w).net = w) ∧
    (enc.length ≤ 7812 → ∃ req,
      (ThreemaEndToEndMessageSender.SendMessage c s rcv pubKey msg w).net.log
        = w.log ++ [req]) ∧
    ((∀ out m n pk sk, (c.Seal out m n pk sk).length = out.length + m.length + 16) →
      (7812 < enc.length ↔ 7796 < b.length)) := by
  rw [EndToEnd_after_encrypt c s rcv pubKey msg w b enc nonce hpad henc]
  refine ⟨?_, fun h => ?_, fun h => ?_, fun hseal => ?_⟩
  · by_cases h : 7812 < enc.length
    · simp [ThreemaMaxEncryptedMessageLength, h]
    · simp only [ThreemaMaxEncryptedMessageLength, gt_iff_lt, h, if_false, iff_false]
      rcases w.answer w.log _ with err | res
      · simp
      · simp only
        split_ifs
        · simp
        · rcases hb : res.body with err | body
          · simp
          · rcases hc : res.close with _ | err <;> simp
  · simp [ThreemaMaxEncryptedMessageLength, h]
  · have h2 : ¬ (7812 < enc.length) := by omega
    simp only [ThreemaMaxEncryptedMessageLength, gt_iff_lt, h2, if_false]
    rcases w.answer w.log _ with err | res
    · exact ⟨_, rfl⟩
    · simp only
      split_ifs
      · exact ⟨_, rfl⟩
      · rcases hb : res.body with err | body
        · exact ⟨_, rfl⟩
        · rcases hc : res.close with _ | err <;> exact ⟨_, rfl⟩
  · simp only [EncryptBytes] at henc
    rcases hn : generateNonce c.randRead with err | nonce1
    · simp [hn] at henc
    · simp only [hn, Except.ok.injEq, Prod.mk.injEq] at henc
      have := hseal (make 0) b nonce1 pubKey s.Encryption.PrivateKey
      rw [henc.1] at this
      simp only [make, List.replicate_zero, List.length_nil] at this
      omega

/-- Witness of C4: the 32-byte frame of "hi" gives a 48-byte ciphertext, which is sent. -/
theorem EndToEnd_size_limit_witness :
    ((ThreemaEndToEndMessageSender.SendMessage demoCrypto demoEndToEnd (lit "ABCDEFGH") demoKey
        demoText (constNetwork 200 (lit "token"))).err
        = some (.errorf "message is too large")
      ↔ 7812 < (List.replicate 16 0 ++ demoFrame).length) ∧
    (7812 < (List.replicate 16 0 ++ demoFrame).length ↔ 7796 < demoFrame.length) :=
  ⟨(EndToEnd_size_limit demoCrypto demoEndToEnd (lit "ABCDEFGH") demoKey demoText
      (constNetwork 200 (lit "token")) demoFrame (List.replicate 16 0 ++ demoFrame)
      (List.replicate 24 7) rfl rfl).1,
   (EndToEnd_size_limit demoCrypto demoEndToEnd (lit "ABCDEFGH") demoKey demoText
      (constNetwork 200 (lit "token")) demoFrame (List.replicate 16 0 ++ demoFrame)
      (List.replicate 24 7) rfl rfl).2.2.2
      (fun out m _ _ _ => by simp [demoCrypto]; omega)⟩

/-- The encrypted sender on a response whose status is outside 200..299: the pair
returned is the empty token and a nil error. -/
theorem EndToEnd_non2xx (c : Crypto) (s : ThreemaEndToEndMessageSender)
    (rcv : GoString) (pubKey : NaClKey) (msg : ThreemaMessage) (w : Network)
    (b enc nonce : Bytes) (res : HttpResponse)
    (hpad : (PaddedData c.randInt msg).1 = .ok b)
    (henc : EncryptBytes c b pubKey s.Encryption.PrivateKey = .ok (enc, nonce))
    (hlen : enc.length ≤ 7812)
    (hans : ∀ req, w.answer w.log req = .ok res)
    (hstatus : res.StatusCode < 200 ∨ 300 ≤ res.StatusCode) :
    (ThreemaEndToEndMessageSender.SendMessage c s rcv pubKey msg w).err = none ∧
    (ThreemaEndToEndMessageSender.SendMessage c s rcv pubKey msg w).token = [] := by
  rw [EndToEnd_after_encrypt c s rcv pubKey msg w b enc nonce hpad henc]
  have h2 : ¬ (7812 < enc.length) := by omega
  simp [ThreemaMaxEncryptedMessageLength, h2, hans, hstatus]

/-- C2, the code at a failing input: the gateway answers the POST with status 404
and the body "error"; `SendMessage` returns the empty token with a nil error, after
making the request. -/
theorem EndToEnd_404_nil_error :
    (ThreemaEndToEndMessageSender.SendMessage demoCrypto demoEndToEnd (lit "ABCDEFGH") demoKey
        demoText (constNetwork 404 (lit "error"))).err = none ∧
    (ThreemaEndToEndMessageSender.SendMessage demoCrypto demoEndToEnd (lit "ABCDEFGH") demoKey
        demoText (constNetwork 404 (lit "error"))).token = [] ∧
    (ThreemaEndToEndMessageSender.SendMessage demoCrypto demoEndToEnd (lit "ABCDEFGH") demoKey
        demoText (constNetwork 404 (lit "error"))).net.log.length = 1 := by
  decide

end Threema
